import Mathlib

/-!
Verification of the xaynet federated-learning coordinator core.

We give a shallow embedding of the Rust sources:
  * `xaynet-core/src/mask/object/mod.rs`   (mask objects)
  * `xaynet-server/src/state_machine/phases/update.rs` (Update-phase handler)
  * `xaynet-core/src/message/payload/sum2.rs` (Sum2 message codec)
  * `xaynet-server/src/services/messages/pre_processor/sum.rs` (sum pre-processor)
  * `xaynet-client/src/api/in_memory.rs` (in-memory API client)

Rust `HashMap`s are embedded as association lists over `ℕ` keys
(public keys and seeds are opaque byte strings, abstracted as `ℕ`);
iteration order of a `HashMap` is determinized as the list order, and
the `HashMap` key-uniqueness guarantee appears as `Nodup` hypotheses.
`BigUint` is embedded as `ℕ`.  Fallible Rust functions return `Except`
or `Option`; functions that mutate state in place are embedded as
state-passing functions returning the new state.
-/

namespace Xaynet

/-! ## A small association-list map library (embedding of `HashMap`) -/

/-- Keys of an association list, in iteration order. -/
def mkeys {α : Type} (m : List (ℕ × α)) : List ℕ :=
  m.map Prod.fst

/-- Values of an association list, in iteration order (Rust `values()`). -/
def mvalues {α : Type} (m : List (ℕ × α)) : List α :=
  m.map Prod.snd

/-- Rust `HashMap::contains_key`. -/
def mcontains {α : Type} (m : List (ℕ × α)) (k : ℕ) : Bool :=
  m.any (fun p => decide (p.1 = k))

/-- Rust `HashMap::get`: the value at the first matching key. -/
def mlookup {α : Type} : List (ℕ × α) → ℕ → Option α
  | [], _ => none
  | (k, v) :: rest, key => if k = key then some v else mlookup rest key

/-- Rust `HashMap::insert` into a map: replace the value at an existing
key in place, or append a fresh binding at the end. -/
def minsert {α : Type} : List (ℕ × α) → ℕ → α → List (ℕ × α)
  | [], k, v => [(k, v)]
  | (k0, v0) :: rest, k, v =>
      if k0 = k then (k, v) :: rest else (k0, v0) :: minsert rest k v

/-- Rust `HashMap::get_mut` followed by an in-place modification:
apply `f` to the value stored at key `k` (all occurrences; under
`Nodup` keys there is at most one). -/
def mupdate {α : Type} : List (ℕ × α) → ℕ → (α → α) → List (ℕ × α)
  | [], _, _ => []
  | (k0, v0) :: rest, k, f =>
      if k0 = k then (k0, f v0) :: mupdate rest k f
      else (k0, v0) :: mupdate rest k f

/-! ## Mask objects (`xaynet-core/src/mask/object/mod.rs`) -/

/-- Modelled from the spec: `MaskConfig` (xaynet-core mask config, not in
the provided sources).  The spec describes it as parameters that determine
a modulus `order : ℕ` bounding every mask element, so we embed it as the
order itself. -/
structure MaskConfig where
  order : ℕ
deriving DecidableEq, Repr

/-- Error type `InvalidMaskObjectError` from `mod.rs`. -/
inductive InvalidMaskObjectError : Type
  | invalidMaskObject
deriving DecidableEq, Repr

/-- `MaskMany` from `mod.rs`: a masked vector (`Vec<BigUint>` as `List ℕ`). -/
structure MaskMany where
  data : List ℕ
  config : MaskConfig
deriving DecidableEq, Repr

/-- `MaskMany::new`. -/
def MaskMany.new (config : MaskConfig) (data : List ℕ) : MaskMany :=
  { data := data, config := config }

/-- `MaskMany::is_valid`: all elements are below the configured order. -/
def MaskMany.is_valid (m : MaskMany) : Bool :=
  m.data.all (fun i => decide (i < m.config.order))

/-- `MaskMany::new_checked`. -/
def MaskMany.new_checked (config : MaskConfig) (data : List ℕ) :
    Except InvalidMaskObjectError MaskMany :=
  let obj := MaskMany.new config data
  if obj.is_valid then Except.ok obj
  else Except.error InvalidMaskObjectError.invalidMaskObject

/-- `MaskMany::empty`: Rust builds `Vec::with_capacity(size)`, whose
length is `0` regardless of `size`; the `size` argument only reserves
capacity, which has no observable counterpart here. -/
def MaskMany.empty (config : MaskConfig) (_size : ℕ) : MaskMany :=
  { data := [], config := config }

/-- `MaskOne` from `mod.rs`: a masked scalar. -/
structure MaskOne where
  data : ℕ
  config : MaskConfig
deriving DecidableEq, Repr

/-- `MaskOne::new`. -/
def MaskOne.new (config : MaskConfig) (data : ℕ) : MaskOne :=
  { data := data, config := config }

/-- `MaskOne::is_valid`. -/
def MaskOne.is_valid (m : MaskOne) : Bool :=
  decide (m.data < m.config.order)

/-- `MaskOne::new_checked`. -/
def MaskOne.new_checked (config : MaskConfig) (data : ℕ) :
    Except InvalidMaskObjectError MaskOne :=
  let obj := MaskOne.new config data
  if obj.is_valid then Except.ok obj
  else Except.error InvalidMaskObjectError.invalidMaskObject

/-- `MaskOne::empty`: Rust sets `data` to `BigUint::from(1usize)`
(the source comments "NOTE not really empty"). -/
def MaskOne.empty (config : MaskConfig) : MaskOne :=
  { data := 1, config := config }

/-- `MaskObject` from `mod.rs`: the pair of a masked vector and scalar. -/
structure MaskObject where
  vector : MaskMany
  scalar : MaskOne
deriving DecidableEq, Repr

/-- `MaskObject::new`. -/
def MaskObject.new (vector : MaskMany) (scalar : MaskOne) : MaskObject :=
  { vector := vector, scalar := scalar }

/-- `MaskObject::new_checked`. -/
def MaskObject.new_checked (config_v : MaskConfig) (data_v : List ℕ)
    (config_s : MaskConfig) (data_s : ℕ) :
    Except InvalidMaskObjectError MaskObject := do
  let vector ← MaskMany.new_checked config_v data_v
  let scalar ← MaskOne.new_checked config_s data_s
  Except.ok { vector := vector, scalar := scalar }

/-- `MaskObject::empty`. -/
def MaskObject.empty (config_many config_one : MaskConfig) (size : ℕ) :
    MaskObject :=
  { vector := MaskMany.empty config_many size
    scalar := MaskOne.empty config_one }

/-- `MaskObject::is_valid`. -/
def MaskObject.is_valid (m : MaskObject) : Bool :=
  m.vector.is_valid && m.scalar.is_valid

/-! ## Update phase (`xaynet-server/src/state_machine/phases/update.rs`) -/

/-- `StateMachineError` variants relevant to the update phase
(from `state_machine/requests.rs`, used by `update.rs`). -/
inductive StateMachineError : Type
  | messageRejected
  | invalidLocalSeedDict
  | aggregationFailed
deriving DecidableEq, Repr

/-- `SumDict`: sum participant pk → ephemeral encryption pk. -/
abbrev SumDict := List (ℕ × ℕ)

/-- `LocalSeedDict`: sum participant pk → encrypted mask seed. -/
abbrev LocalSeedDict := List (ℕ × ℕ)

/-- `UpdateSeedDict` (an inner map of the seed dict):
update participant pk → encrypted mask seed. -/
abbrev UpdateSeedDict := List (ℕ × ℕ)

/-- `SeedDict`: sum participant pk → `UpdateSeedDict`. -/
abbrev SeedDict := List (ℕ × UpdateSeedDict)

/-- Modelled from the spec: the aggregation engine (`xaynet-core`
mask aggregation, not in the provided sources).  Per spec §4.3 and §3 it
is `{config, size, partial sum, count}`; `partial` is the componentwise
running sum (field named `data` here). -/
structure Aggregation where
  config : MaskConfig
  size : ℕ
  data : List ℕ
  count : ℕ
deriving DecidableEq, Repr

/-- Modelled from the spec: `Aggregation::new(config, size)` initializes
to the zero vector of length `size`. -/
def Aggregation.new (config : MaskConfig) (size : ℕ) : Aggregation :=
  { config := config, size := size, data := List.replicate size 0, count := 0 }

/-- Modelled from the spec: `Aggregation::validate_aggregation(obj)` fails
if `obj.config != self.config` or `obj.vector.data.len() != self.size`
(the two O(1) checks the spec's design notes enumerate). -/
def Aggregation.validate_aggregation (agg : Aggregation) (obj : MaskObject) :
    Bool :=
  decide (obj.vector.config = agg.config) && decide (obj.vector.data.length = agg.size)

/-- Modelled from the spec: `Aggregation::aggregate(obj)` adds the masked
vector componentwise and increments the contributor count. -/
def Aggregation.aggregate (agg : Aggregation) (obj : MaskObject) : Aggregation :=
  { agg with
    data := List.zipWith (· + ·) agg.data obj.vector.data
    count := agg.count + 1 }

/-- The `Update` phase-state struct from `update.rs`. -/
structure UpdateState where
  frozen_sum_dict : SumDict
  seed_dict : SeedDict
  model_agg : Aggregation
  scalar_agg : Aggregation
deriving DecidableEq, Repr

/-- An `UpdateRequest` from `state_machine/requests.rs` as consumed by
`handle_update`. -/
structure UpdateRequest where
  participant_pk : ℕ
  local_seed_dict : LocalSeedDict
  masked_model : MaskObject
  masked_scalar : MaskObject
deriving DecidableEq, Repr

/-- The guard condition of `add_local_seed_dict` (update.rs lines
232-242): the local dict has as many keys as the frozen sum dict, all its
keys are keys of the frozen sum dict, and the first inner map of the seed
dict (Rust `values().next()`, determinized to the head) does not already
contain the updater pk. -/
def seedDictCheck (frozen : SumDict) (sd : SeedDict) (pk : ℕ)
    (lsd : LocalSeedDict) : Bool :=
  decide ((mkeys lsd).length = (mkeys frozen).length)
  && lsd.all (fun p => mcontains frozen p.1)
  && (match (mvalues sd).head? with
      | none => true
      | some d => ! mcontains d pk)

/-- The insertion loop of `add_local_seed_dict` (update.rs lines 244-253):
for each `(sum_pk, seed)` of the local dict, `get_mut(sum_pk)` the inner
map and insert `(pk, seed)`; a missing inner map raises
`InvalidLocalSeedDict` (leaving earlier insertions in place, as the Rust
loop does). -/
def addLocalSeedDictLoop (pk : ℕ) :
    SeedDict → LocalSeedDict → Option StateMachineError × SeedDict
  | sd, [] => (none, sd)
  | sd, (sum_pk, seed) :: rest =>
      if mcontains sd sum_pk then
        addLocalSeedDictLoop pk
          (mupdate sd sum_pk (fun inner => minsert inner pk seed)) rest
      else (some StateMachineError.invalidLocalSeedDict, sd)

/-- `add_local_seed_dict` (update.rs lines 227-259), with the seed dict
passed and returned explicitly (`&mut self` state threading). -/
def add_local_seed_dict (frozen : SumDict) (sd : SeedDict) (pk : ℕ)
    (lsd : LocalSeedDict) : Option StateMachineError × SeedDict :=
  if seedDictCheck frozen sd pk lsd then addLocalSeedDictLoop pk sd lsd
  else (some StateMachineError.invalidLocalSeedDict, sd)

/-- `update_seed_dict_and_aggregate_mask` = body of `handle_update`
(update.rs lines 179-221): validate model aggregation, validate scalar
aggregation, update the seed dict, then aggregate both masks.  The whole
phase state is threaded explicitly; an error is paired with the state as
left by the Rust mutations. -/
def handle_update (s : UpdateState) (req : UpdateRequest) :
    Option StateMachineError × UpdateState :=
  if ! s.model_agg.validate_aggregation req.masked_model then
    (some StateMachineError.aggregationFailed, s)
  else if ! s.scalar_agg.validate_aggregation req.masked_scalar then
    (some StateMachineError.aggregationFailed, s)
  else
    match add_local_seed_dict s.frozen_sum_dict s.seed_dict
        req.participant_pk req.local_seed_dict with
    | (some e, sd2) => (some e, { s with seed_dict := sd2 })
    | (none, sd2) =>
        (none,
          { s with
            seed_dict := sd2
            model_agg := s.model_agg.aggregate req.masked_model
            scalar_agg := s.scalar_agg.aggregate req.masked_scalar })

/-- `updater_count` (update.rs lines 262-269): the size of the first inner
map of the seed dict, or 0. -/
def updater_count (s : UpdateState) : ℕ :=
  match (mvalues s.seed_dict).head? with
  | none => 0
  | some d => d.length

/-- Run a sequence of update requests through the handler (each request is
handled in arrival order; a rejected request leaves the returned state). -/
def runUpdates : UpdateState → List UpdateRequest → UpdateState
  | s, [] => s
  | s, r :: rest => runUpdates (handle_update s r).2 rest

/-- The pks of the requests accepted (handler returned `Ok`) along a run,
in arrival order. -/
def acceptedPks : UpdateState → List UpdateRequest → List ℕ
  | _, [] => []
  | s, r :: rest =>
      match handle_update s r with
      | (none, s2) => r.participant_pk :: acceptedPks s2 rest
      | (some _, s2) => acceptedPks s2 rest

/-! ## Sum2 message codec (`xaynet-core/src/message/payload/sum2.rs`)

The mask-object byte codec (`mask/object/serialization.rs`) is not among
the provided sources; it is modelled from the spec (§4.2 and §6): a mask
object's encoded length is computable from a fixed header prefix, elements
are fixed-width per the config, and decoders fail with `DecodeError` on
under-length buffers or elements exceeding the modulus.  Bytes are
embedded as `List ℕ` (entries below 256 where produced by an encoder). -/

/-- `DecodeError` kinds, per the spec's error taxonomy (§7). -/
inductive DecodeError : Type
  | bufferTooShort
  | elementExceedsModulus
  | configMismatch
deriving DecidableEq, Repr

/-- Little-endian encoding of `n` into exactly `w` bytes. -/
def leBytes : ℕ → ℕ → List ℕ
  | 0, _ => []
  | w + 1, n => n % 256 :: leBytes w (n / 256)

/-- Little-endian reading of a byte list. -/
def leFromBytes : List ℕ → ℕ
  | [] => 0
  | b :: rest => b + 256 * leFromBytes rest

/-- Modelled from the spec: the element width (bytes per number)
determined by a masking order — the least width that can hold any
element `< order`. -/
def bpnOfOrder (order : ℕ) : ℕ :=
  Nat.log 256 (order - 1) + 1

/-- Modelled from the spec: bytes per number of a `MaskConfig`. -/
def bytesPerNumber (c : MaskConfig) : ℕ :=
  bpnOfOrder c.order

/-- Modelled from the spec: the mask-object header prefix is the 8-byte
config (its order) followed by the 4-byte element count. -/
def maskHeaderLength : ℕ := 12

/-- Modelled from the spec: `MaskObjectBuffer::len()` — the encoded
length of a mask object, computed from the header prefix alone. -/
def maskObjectLen (buf : List ℕ) : ℕ :=
  maskHeaderLength
    + leFromBytes ((buf.drop 8).take 4) * bpnOfOrder (leFromBytes (buf.take 8))

/-- Modelled from the spec: `MaskObjectBuffer::new` — checks that the
buffer holds a complete mask object and returns its encoded length. -/
def maskObjectBufferNew (buf : List ℕ) : Except DecodeError ℕ :=
  if buf.length < maskHeaderLength then Except.error DecodeError.bufferTooShort
  else if buf.length < maskObjectLen buf then Except.error DecodeError.bufferTooShort
  else Except.ok (maskObjectLen buf)

/-- Modelled from the spec: `MaskMany::to_bytes` — header prefix followed
by the fixed-width little-endian elements. -/
def MaskMany.to_bytes (m : MaskMany) : List ℕ :=
  leBytes 8 m.config.order ++ leBytes 4 m.data.length
    ++ (m.data.map (leBytes (bytesPerNumber m.config))).flatten

/-- Modelled from the spec: `MaskMany::buffer_length`. -/
def MaskMany.buffer_length (m : MaskMany) : ℕ :=
  maskHeaderLength + m.data.length * bytesPerNumber m.config

/-- Modelled from the spec: `MaskMany::from_bytes` — reads the header
prefix, then the elements; fails `BufferTooShort` on an under-length
buffer and `ElementExceedsModulus` if an element is not below the order.
Trailing bytes beyond the encoded length are ignored (the field slices of
a composite message extend to the end of the message). -/
def MaskMany.from_bytes (buf : List ℕ) : Except DecodeError MaskMany :=
  if buf.length < maskHeaderLength then Except.error DecodeError.bufferTooShort
  else
    let order := leFromBytes (buf.take 8)
    let count := leFromBytes ((buf.drop 8).take 4)
    let bpn := bpnOfOrder order
    if buf.length < maskHeaderLength + count * bpn then
      Except.error DecodeError.bufferTooShort
    else
      let data := (List.range count).map
        (fun i => leFromBytes ((buf.drop (maskHeaderLength + i * bpn)).take bpn))
      if data.all (fun x => decide (x < order)) then
        Except.ok (MaskMany.new (MaskConfig.mk order) data)
      else Except.error DecodeError.elementExceedsModulus

/-- Modelled from the spec: `MaskOne::to_bytes` — a scalar is encoded as
a one-element mask object. -/
def MaskOne.to_bytes (m : MaskOne) : List ℕ :=
  (MaskMany.new m.config [m.data]).to_bytes

/-- Modelled from the spec: `MaskOne::buffer_length`. -/
def MaskOne.buffer_length (m : MaskOne) : ℕ :=
  maskHeaderLength + bytesPerNumber m.config

/-- Modelled from the spec: `MaskOne::from_bytes` — decodes a one-element
mask object. -/
def MaskOne.from_bytes (buf : List ℕ) : Except DecodeError MaskOne :=
  match MaskMany.from_bytes buf with
  | Except.error e => Except.error e
  | Except.ok obj =>
      match obj.data with
      | [d] => Except.ok (MaskOne.new obj.config d)
      | _ => Except.error DecodeError.configMismatch

/-- The length of the sum-signature field: `SUM_SIGNATURE_RANGE.end`
(`ParticipantTaskSignature::LENGTH`, an Ed25519 signature of 64 bytes). -/
def sumSignatureLength : ℕ := 64

/-- The `Sum2` message payload (sum2.rs lines 144-156).  The signature is
an opaque 64-byte string. -/
structure Sum2 where
  sum_signature : List ℕ
  model_mask : MaskObject
deriving DecidableEq, Repr

/-- `ToBytes::buffer_length` for `Sum2` (sum2.rs lines 160-164). -/
def Sum2.buffer_length (m : Sum2) : ℕ :=
  sumSignatureLength + m.model_mask.vector.buffer_length
    + m.model_mask.scalar.buffer_length

/-- `ToBytes::to_bytes` for `Sum2` (sum2.rs lines 166-175): the signature
at offset 0, the model-mask vector after it, and the scalar after that
(the scalar offset is found from the vector's self-describing length). -/
def Sum2.to_bytes (m : Sum2) : List ℕ :=
  m.sum_signature ++ m.model_mask.vector.to_bytes ++ m.model_mask.scalar.to_bytes

/-- `Sum2Buffer::check_buffer_length` (sum2.rs lines 54-73): the buffer
must hold at least the 64-byte signature, then a complete model-mask
field, then a complete scalar-mask field. -/
def Sum2Buffer.check_buffer_length (buf : List ℕ) : Except DecodeError Unit :=
  if buf.length < sumSignatureLength then Except.error DecodeError.bufferTooShort
  else
    match maskObjectBufferNew (buf.drop sumSignatureLength) with
    | Except.error e => Except.error e
    | Except.ok mlen =>
        match maskObjectBufferNew (buf.drop (sumSignatureLength + mlen)) with
        | Except.error e => Except.error e
        | Except.ok _ => Except.ok ()

/-- `Sum2Buffer::new` (sum2.rs lines 38-44): bound checks, then the
checked buffer. -/
def Sum2Buffer.new (buf : List ℕ) : Except DecodeError (List ℕ) :=
  match Sum2Buffer.check_buffer_length buf with
  | Except.error e => Except.error e
  | Except.ok _ => Except.ok buf

/-- `FromBytes::from_bytes` for `Sum2` (sum2.rs lines 179-191): check the
buffer, read the 64-byte signature, decode the model-mask vector at
offset 64 and the scalar at the offset given by the vector field's
self-describing length. -/
def Sum2.from_bytes (buf : List ℕ) : Except DecodeError Sum2 :=
  match Sum2Buffer.new buf with
  | Except.error e => Except.error e
  | Except.ok reader =>
      match MaskMany.from_bytes (reader.drop sumSignatureLength) with
      | Except.error e => Except.error e
      | Except.ok vector =>
          match MaskOne.from_bytes
              (reader.drop
                (sumSignatureLength + maskObjectLen (reader.drop sumSignatureLength))) with
          | Except.error e => Except.error e
          | Except.ok scalar =>
              Except.ok
                { sum_signature := reader.take sumSignatureLength
                  model_mask := MaskObject.new vector scalar }

/-! ## Sum pre-processor (`xaynet-server/src/services/messages/pre_processor/sum.rs`)

The Ed25519 primitives (`verify_detached`, `Signature::is_eligible`) live
in `xaynet-core/src/crypto`, which is not among the provided sources; the
pre-processor is therefore parametrized by them (modelled from the spec:
detached verification against `seed || "sum"`, and eligibility
`uniform(sig) ≤ sum_ratio`). -/

/-- The message `Header` (participant and coordinator public keys,
abstracted as `ℕ`). -/
structure Header where
  coordinator_pk : ℕ
  participant_pk : ℕ
deriving DecidableEq, Repr

/-- The `Sum` message payload: the task signature and the ephemeral
encryption key. -/
structure Sum where
  sum_signature : ℕ
  ephm_pk : ℕ
deriving DecidableEq, Repr

/-- `RoundParameters`: the round seed and the sum ratio (the update ratio
and mask config are not consulted by this pre-processor). -/
structure RoundParameters where
  seed : List ℕ
  sum : ℚ
deriving DecidableEq, Repr

/-- A message `Payload`; only the `Sum` variant is produced by the sum
pre-processor. -/
inductive Payload : Type
  | sum (s : Sum)
deriving DecidableEq, Repr

/-- A full `Message`: header plus payload. -/
structure Message where
  header : Header
  payload : Payload
deriving DecidableEq, Repr

/-- `PreProcessorError`, per the spec's taxonomy (§7). -/
inductive PreProcessorError : Type
  | invalidSumSignature
  | invalidUpdateSignature
  | notSumEligible
  | notUpdateEligible
  | unknownSumParticipant
deriving DecidableEq, Repr

/-- The bytes of the fixed task string `b"sum"`. -/
def sumTaskTag : List ℕ := [115, 117, 109]

/-- `SumPreProcessor::has_valid_sum_signature` (sum.rs lines 68-73),
parametrized by the Ed25519 detached verifier
`verify pk signature message`. -/
def has_valid_sum_signature (verify : ℕ → ℕ → List ℕ → Bool)
    (header : Header) (message : Sum) (params : RoundParameters) : Bool :=
  verify header.participant_pk message.sum_signature (params.seed ++ sumTaskTag)

/-- `SumPreProcessor::is_eligible_for_sum_task` (sum.rs lines 76-78),
parametrized by the eligibility check `isEligible signature ratio`. -/
def is_eligible_for_sum_task (isEligible : ℕ → ℚ → Bool)
    (message : Sum) (params : RoundParameters) : Bool :=
  isEligible message.sum_signature params.sum

/-- `SumPreProcessor::call` (sum.rs lines 51-66): reject with
`InvalidSumSignature` on a bad signature, with `NotSumEligible` on an
ineligible one, and otherwise wrap the unchanged header and payload in a
`Message`.  The function consumes only its inputs — there is no
coordinator state to mutate. -/
def sumPreProcessorCall (verify : ℕ → ℕ → List ℕ → Bool)
    (isEligible : ℕ → ℚ → Bool) (header : Header) (message : Sum)
    (params : RoundParameters) : Except PreProcessorError Message :=
  if ! has_valid_sum_signature verify header message params then
    Except.error PreProcessorError.invalidSumSignature
  else if ! is_eligible_for_sum_task isEligible message params then
    Except.error PreProcessorError.notSumEligible
  else
    Except.ok { header := header, payload := Payload.sum message }

/-! ## In-memory API client (`xaynet-client/src/api/in_memory.rs`) -/

/-- `FetchError` (event-bus fetch failure; opaque). -/
inductive FetchError : Type
  | shutdown
deriving DecidableEq, Repr

/-- `InMemoryApiClientError` (in_memory.rs lines 36-43). -/
inductive InMemoryApiClientError : Type
  | message
  | fetch (e : FetchError)
deriving DecidableEq, Repr

/-- `InMemoryApiClient::get_seeds` (in_memory.rs lines 57-66): the
fetcher's current seed-dict snapshot (`Ok(None)` before any broadcast) is
mapped through `Option::and_then` with a lookup of `pk`; a clone of the
inner map is returned.  The fetcher call is embedded as its result. -/
def get_seeds (seedDictResult : Except FetchError (Option SeedDict)) (pk : ℕ) :
    Except InMemoryApiClientError (Option UpdateSeedDict) :=
  match seedDictResult with
  | Except.error e => Except.error (InMemoryApiClientError.fetch e)
  | Except.ok o => Except.ok (o.bind (fun dict => mlookup dict pk))

@[simp]
theorem mkeys_nil {α : Type} : mkeys ([] : List (ℕ × α)) = [] := rfl

@[simp]
theorem mkeys_cons {α : Type} (p : ℕ × α) (m : List (ℕ × α)) :
    mkeys (p :: m) = p.1 :: mkeys m := rfl

@[simp]
theorem mvalues_nil {α : Type} : mvalues ([] : List (ℕ × α)) = [] := rfl

@[simp]
theorem mvalues_cons {α : Type} (p : ℕ × α) (m : List (ℕ × α)) :
    mvalues (p :: m) = p.2 :: mvalues m := rfl

theorem mcontains_iff {α : Type} (m : List (ℕ × α)) (k : ℕ) :
    mcontains m k = true ↔ k ∈ mkeys m := by
  induction m with
  | nil => simp [mcontains]
  | cons p rest ih =>
    obtain ⟨k0, v0⟩ := p
    simp only [mcontains, List.any_cons, Bool.or_eq_true, decide_eq_true_eq,
      mkeys_cons, List.mem_cons]
    rw [show rest.any (fun p => decide (p.1 = k)) = mcontains rest k from rfl, ih]
    tauto

theorem mlookup_eq_none_iff {α : Type} (m : List (ℕ × α)) (k : ℕ) :
    mlookup m k = none ↔ k ∉ mkeys m := by
  induction m with
  | nil => simp [mlookup]
  | cons p rest ih =>
    obtain ⟨k0, v0⟩ := p
    by_cases h : k0 = k
    · subst h; simp [mlookup]
    · have h2 : ¬ k = k0 := fun hh => h hh.symm
      simp only [mlookup, if_neg h, mkeys_cons, List.mem_cons]
      rw [ih]
      tauto

theorem mlookup_isSome_iff {α : Type} (m : List (ℕ × α)) (k : ℕ) :
    (mlookup m k).isSome = true ↔ k ∈ mkeys m := by
  have h := mlookup_eq_none_iff m k
  cases hm : mlookup m k with
  | none =>
    rw [hm] at h
    simp only [Option.isSome_none, Bool.false_eq_true, false_iff]
    exact h.mp rfl
  | some v =>
    rw [hm] at h
    simp only [Option.isSome_some, true_iff]
    by_contra hk
    exact absurd (h.mpr hk) (by simp)

theorem mkeys_mupdate {α : Type} (m : List (ℕ × α)) (k : ℕ) (f : α → α) :
    mkeys (mupdate m k f) = mkeys m := by
  induction m with
  | nil => rfl
  | cons p rest ih =>
    obtain ⟨k0, v0⟩ := p
    by_cases h : k0 = k
    · simp [mupdate, h, ih]
    · simp [mupdate, h, ih]

theorem mlookup_mupdate {α : Type} (m : List (ℕ × α)) (k j : ℕ) (f : α → α) :
    mlookup (mupdate m k f) j =
      if j = k then (mlookup m k).map f else mlookup m j := by
  induction m with
  | nil => by_cases h : j = k <;> simp [mupdate, mlookup, h]
  | cons p rest ih =>
    obtain ⟨k0, v0⟩ := p
    by_cases hk : k0 = k
    · subst hk
      by_cases hj : j = k0
      · subst hj; simp [mupdate, mlookup]
      · have hj2 : ¬ k0 = j := fun h => hj h.symm
        simp [mupdate, mlookup, hj, hj2, ih]
    · by_cases hj : k0 = j
      · subst hj
        have hjk : ¬ k0 = k := hk
        simp [mupdate, mlookup, hk, hjk]
      · have hj2 : ¬ j = k0 := fun h => hj h.symm
        simp [mupdate, mlookup, hk, hj, hj2, ih]

theorem mkeys_minsert_mem {α : Type} (m : List (ℕ × α)) (k : ℕ) (v : α)
    (h : k ∈ mkeys m) : mkeys (minsert m k v) = mkeys m := by
  induction m with
  | nil => simp at h
  | cons p rest ih =>
    obtain ⟨k0, v0⟩ := p
    by_cases hk : k0 = k
    · subst hk; simp [minsert]
    · have hk2 : ¬ k = k0 := fun hh => hk hh.symm
      simp only [mkeys_cons, List.mem_cons] at h
      have h2 : k ∈ mkeys rest := by
        rcases h with h | h
        · exact absurd h hk2
        · exact h
      simp [minsert, hk, ih h2]

theorem mkeys_minsert_not_mem {α : Type} (m : List (ℕ × α)) (k : ℕ) (v : α)
    (h : k ∉ mkeys m) : mkeys (minsert m k v) = mkeys m ++ [k] := by
  induction m with
  | nil => simp [minsert]
  | cons p rest ih =>
    obtain ⟨k0, v0⟩ := p
    simp only [mkeys_cons, List.mem_cons] at h
    push_neg at h
    have hk : ¬ k0 = k := fun hh => h.1 hh.symm
    simp [minsert, hk, ih h.2]

theorem mem_mkeys_iff_entry {α : Type} (m : List (ℕ × α)) (k : ℕ) :
    k ∈ mkeys m ↔ ∃ v, (k, v) ∈ m := by
  simp only [mkeys, List.mem_map]
  constructor
  · rintro ⟨⟨k0, v0⟩, hm, rfl⟩; exact ⟨v0, hm⟩
  · rintro ⟨v, hm⟩; exact ⟨(k, v), hm, rfl⟩

theorem entry_mem_iff_mlookup {α : Type} (m : List (ℕ × α)) (k : ℕ) (v : α)
    (hnd : (mkeys m).Nodup) : (k, v) ∈ m ↔ mlookup m k = some v := by
  induction m with
  | nil => simp [mlookup]
  | cons p rest ih =>
    obtain ⟨k0, v0⟩ := p
    simp only [mkeys_cons, List.nodup_cons] at hnd
    by_cases h : k0 = k
    · subst h
      simp only [mlookup, if_pos, List.mem_cons, Prod.mk.injEq, Option.some.injEq]
      constructor
      · rintro (⟨_, h⟩ | h)
        · exact h.symm
        · exact absurd ((mem_mkeys_iff_entry rest k0).mpr ⟨v, h⟩) hnd.1
      · rintro rfl; exact Or.inl ⟨trivial, rfl⟩
    · have h2 : ¬ (k, v) = (k0, v0) := by
        intro hh
        exact h (congrArg Prod.fst hh).symm
      simp only [mlookup, if_neg h, List.mem_cons]
      rw [ih hnd.2]
      tauto

theorem mem_mvalues_iff {α : Type} (m : List (ℕ × α)) (d : α) :
    d ∈ mvalues m ↔ ∃ k, (k, d) ∈ m := by
  simp only [mvalues, List.mem_map]
  constructor
  · rintro ⟨⟨k, v⟩, hm, rfl⟩; exact ⟨k, hm⟩
  · rintro ⟨k, hm⟩; exact ⟨(k, d), hm, rfl⟩

/-! ## Lemmas about the seed-dict insertion loop -/

theorem loop_nil (pk : ℕ) (sd : SeedDict) :
    addLocalSeedDictLoop pk sd [] = (none, sd) := rfl

theorem loop_cons (pk sum_pk seed : ℕ) (sd : SeedDict) (rest : LocalSeedDict) :
    addLocalSeedDictLoop pk sd ((sum_pk, seed) :: rest)
      = if mcontains sd sum_pk then
          addLocalSeedDictLoop pk
            (mupdate sd sum_pk (fun inner => minsert inner pk seed)) rest
        else (some StateMachineError.invalidLocalSeedDict, sd) := rfl

theorem loop_keys (pk : ℕ) (l : LocalSeedDict) :
    ∀ sd : SeedDict, mkeys (addLocalSeedDictLoop pk sd l).2 = mkeys sd := by
  induction l with
  | nil => intro sd; rfl
  | cons p rest ih =>
    obtain ⟨sum_pk, seed⟩ := p
    intro sd
    rw [loop_cons]
    by_cases h : mcontains sd sum_pk = true
    · rw [if_pos h, ih, mkeys_mupdate]
    · rw [if_neg h]

theorem loop_ok_of_subset (pk : ℕ) (l : LocalSeedDict) :
    ∀ sd : SeedDict, (∀ k ∈ mkeys l, k ∈ mkeys sd)
      → (addLocalSeedDictLoop pk sd l).1 = none := by
  induction l with
  | nil => intro sd _; rfl
  | cons p rest ih =>
    obtain ⟨sum_pk, seed⟩ := p
    intro sd h
    have hc : mcontains sd sum_pk = true :=
      (mcontains_iff _ _).mpr (h sum_pk (by simp))
    rw [loop_cons, if_pos hc]
    apply ih
    intro k hk
    rw [mkeys_mupdate]
    exact h k (by simp [hk])

theorem loop_lookup_not_mem (pk : ℕ) (l : LocalSeedDict) :
    ∀ (sd : SeedDict) (j : ℕ), j ∉ mkeys l
      → mlookup (addLocalSeedDictLoop pk sd l).2 j = mlookup sd j := by
  induction l with
  | nil => intro sd j _; rfl
  | cons p rest ih =>
    obtain ⟨sum_pk, seed⟩ := p
    intro sd j hj
    simp only [mkeys_cons, List.mem_cons] at hj
    push_neg at hj
    rw [loop_cons]
    by_cases h : mcontains sd sum_pk = true
    · rw [if_pos h, ih _ j hj.2, mlookup_mupdate, if_neg hj.1]
    · rw [if_neg h]

theorem loop_lookup_mem (pk : ℕ) (l : LocalSeedDict) (hnd : (mkeys l).Nodup) :
    ∀ (sd : SeedDict) (j seed : ℕ), mlookup l j = some seed
      → (addLocalSeedDictLoop pk sd l).1 = none
      → mlookup (addLocalSeedDictLoop pk sd l).2 j
          = (mlookup sd j).map (fun inner => minsert inner pk seed) := by
  induction l with
  | nil =>
    intro sd j seed h
    exact absurd h (by simp [mlookup])
  | cons p rest ih =>
    obtain ⟨sum_pk, s0⟩ := p
    simp only [mkeys_cons, List.nodup_cons] at hnd
    intro sd j seed hl hok
    rw [loop_cons] at hok ⊢
    by_cases hc : mcontains sd sum_pk = true
    · rw [if_pos hc] at hok ⊢
      by_cases hj : sum_pk = j
      · subst hj
        have hseed : s0 = seed := by
          simpa [mlookup] using hl
        subst hseed
        rw [loop_lookup_not_mem pk rest _ sum_pk hnd.1,
          mlookup_mupdate, if_pos rfl]
      · have hl2 : mlookup rest j = some seed := by
          simpa [mlookup, hj] using hl
        rw [ih hnd.2 _ j seed hl2 hok, mlookup_mupdate,
          if_neg (fun h => hj h.symm)]
    · rw [if_neg hc] at hok
      exact absurd hok (by simp)

theorem seedDictCheck_spec (frozen : SumDict) (sd : SeedDict) (pk : ℕ)
    (lsd : LocalSeedDict) (h : seedDictCheck frozen sd pk lsd = true) :
    (mkeys lsd).length = (mkeys frozen).length
    ∧ (∀ k ∈ mkeys lsd, k ∈ mkeys frozen)
    ∧ (∀ d, (mvalues sd).head? = some d → mcontains d pk = false) := by
  simp only [seedDictCheck, Bool.and_eq_true, decide_eq_true_eq,
    List.all_eq_true] at h
  obtain ⟨⟨hlen, hsub⟩, hfree⟩ := h
  refine ⟨hlen, ?_, ?_⟩
  · intro k hk
    obtain ⟨v, hv⟩ := (mem_mkeys_iff_entry lsd k).mp hk
    exact (mcontains_iff _ _).mp (hsub (k, v) hv)
  · intro d hd
    rw [hd] at hfree
    simpa using hfree

theorem seedDictCheck_true_of (frozen : SumDict) (sd : SeedDict) (pk : ℕ)
    (lsd : LocalSeedDict)
    (hlen : (mkeys lsd).length = (mkeys frozen).length)
    (hsub : ∀ k ∈ mkeys lsd, k ∈ mkeys frozen)
    (hfree : ∀ d, (mvalues sd).head? = some d → mcontains d pk = false) :
    seedDictCheck frozen sd pk lsd = true := by
  simp only [seedDictCheck, Bool.and_eq_true, decide_eq_true_eq,
    List.all_eq_true]
  refine ⟨⟨hlen, ?_⟩, ?_⟩
  · intro p hp
    exact (mcontains_iff _ _).mpr
      (hsub p.1 ((mem_mkeys_iff_entry lsd p.1).mpr ⟨p.2, hp⟩))
  · cases hh : (mvalues sd).head? with
    | none => simp
    | some d => simpa using hfree d hh

theorem keyset_iff_of_subset_length {l f : List ℕ} (hnl : l.Nodup)
    (hnf : f.Nodup) (hsub : ∀ k ∈ l, k ∈ f) (hlen : l.length = f.length) :
    ∀ k, k ∈ l ↔ k ∈ f := by
  have hfin : l.toFinset = f.toFinset := by
    apply Finset.eq_of_subset_of_card_le
    · intro k hk
      rw [List.mem_toFinset] at hk ⊢
      exact hsub k hk
    · rw [List.toFinset_card_of_nodup hnl, List.toFinset_card_of_nodup hnf,
        hlen]
  intro k
  rw [← List.mem_toFinset, ← List.mem_toFinset (l := f), hfin]

theorem length_eq_of_keyset_iff {l f : List ℕ} (hnl : l.Nodup)
    (hnf : f.Nodup) (hiff : ∀ k, k ∈ l ↔ k ∈ f) : l.length = f.length := by
  have hfin : l.toFinset = f.toFinset := by
    ext k
    rw [List.mem_toFinset, List.mem_toFinset]
    exact hiff k
  rw [← List.toFinset_card_of_nodup hnl, ← List.toFinset_card_of_nodup hnf,
    hfin]

theorem head?_mem {α : Type} {l : List α} {d : α} (h : l.head? = some d) :
    d ∈ l := by
  cases l with
  | nil => cases h
  | cons a rest =>
    simp only [List.head?_cons, Option.some.injEq] at h
    subst h
    exact List.mem_cons_self a rest

theorem add_eq_loop_of_check (frozen : SumDict) (sd : SeedDict) (pk : ℕ)
    (lsd : LocalSeedDict) (hcheck : seedDictCheck frozen sd pk lsd = true) :
    add_local_seed_dict frozen sd pk lsd = addLocalSeedDictLoop pk sd lsd := by
  unfold add_local_seed_dict
  rw [hcheck]
  simp

theorem add_eq_err_of_not_check (frozen : SumDict) (sd : SeedDict) (pk : ℕ)
    (lsd : LocalSeedDict) (hcheck : ¬ seedDictCheck frozen sd pk lsd = true) :
    add_local_seed_dict frozen sd pk lsd
      = (some StateMachineError.invalidLocalSeedDict, sd) := by
  unfold add_local_seed_dict
  rw [Bool.not_eq_true] at hcheck
  rw [hcheck]
  simp

/-! ## Lemmas about the update handler and request sequences -/

theorem handle_update_model_fail (s : UpdateState) (r : UpdateRequest)
    (h : s.model_agg.validate_aggregation r.masked_model = false) :
    handle_update s r = (some StateMachineError.aggregationFailed, s) := by
  simp [handle_update, h]

theorem handle_update_scalar_fail (s : UpdateState) (r : UpdateRequest)
    (h1 : s.model_agg.validate_aggregation r.masked_model = true)
    (h2 : s.scalar_agg.validate_aggregation r.masked_scalar = false) :
    handle_update s r = (some StateMachineError.aggregationFailed, s) := by
  simp [handle_update, h1, h2]

theorem handle_update_validations_pass (s : UpdateState) (r : UpdateRequest)
    (h1 : s.model_agg.validate_aggregation r.masked_model = true)
    (h2 : s.scalar_agg.validate_aggregation r.masked_scalar = true) :
    handle_update s r
      = match add_local_seed_dict s.frozen_sum_dict s.seed_dict
          r.participant_pk r.local_seed_dict with
        | (some e, sd2) => (some e, { s with seed_dict := sd2 })
        | (none, sd2) =>
            (none,
              { s with
                seed_dict := sd2
                model_agg := s.model_agg.aggregate r.masked_model
                scalar_agg := s.scalar_agg.aggregate r.masked_scalar }) := by
  simp [handle_update, h1, h2]

/-- One handler step preserves the seed-dict invariant: on an error the
state is returned unchanged, and on success every inner map's key list
grows by exactly the accepted pk. -/
theorem handle_update_step (frozen : SumDict) (sd : SeedDict)
    (magg sagg : Aggregation) (r : UpdateRequest) (A : List ℕ)
    (hnf : (mkeys frozen).Nodup)
    (hkeys : ∀ k, k ∈ mkeys sd ↔ k ∈ mkeys frozen)
    (hnd : (mkeys sd).Nodup)
    (hinner : ∀ d ∈ mvalues sd, mkeys d = A ∧ (mkeys d).Nodup)
    (hnl : (mkeys r.local_seed_dict).Nodup) :
    ((handle_update (UpdateState.mk frozen sd magg sagg) r).1 ≠ none
      → (handle_update (UpdateState.mk frozen sd magg sagg) r).2
          = UpdateState.mk frozen sd magg sagg)
    ∧ ((handle_update (UpdateState.mk frozen sd magg sagg) r).1 = none
      → (∀ k, k ∈ mkeys (handle_update (UpdateState.mk frozen sd magg
            sagg) r).2.seed_dict ↔ k ∈ mkeys frozen)
        ∧ (mkeys (handle_update (UpdateState.mk frozen sd magg
            sagg) r).2.seed_dict).Nodup
        ∧ (∀ d ∈ mvalues (handle_update (UpdateState.mk frozen sd magg
            sagg) r).2.seed_dict,
            mkeys d = A ++ [r.participant_pk] ∧ (mkeys d).Nodup)) := by
  set s := UpdateState.mk frozen sd magg sagg with hs
  cases hm1 : s.model_agg.validate_aggregation r.masked_model with
  | false =>
    rw [handle_update_model_fail s r hm1]
    exact ⟨fun _ => rfl, fun h => Option.noConfusion h⟩
  | true =>
    cases hm2 : s.scalar_agg.validate_aggregation r.masked_scalar with
    | false =>
      rw [handle_update_scalar_fail s r hm1 hm2]
      exact ⟨fun _ => rfl, fun h => Option.noConfusion h⟩
    | true =>
      rw [handle_update_validations_pass s r hm1 hm2]
      by_cases hc : seedDictCheck s.frozen_sum_dict s.seed_dict
          r.participant_pk r.local_seed_dict = true
      · have hsub2 : ∀ k ∈ mkeys r.local_seed_dict, k ∈ mkeys sd := by
          intro k hk
          exact (hkeys k).mpr
            ((seedDictCheck_spec _ _ _ _ hc).2.1 k hk)
        have hloop := loop_ok_of_subset r.participant_pk r.local_seed_dict sd hsub2
        have heq := add_eq_loop_of_check s.frozen_sum_dict s.seed_dict
          r.participant_pk r.local_seed_dict hc
        rw [heq]
        obtain ⟨hlen, hsub, hfree⟩ := seedDictCheck_spec _ _ _ _ hc
        have hiff_lf : ∀ k, k ∈ mkeys r.local_seed_dict ↔ k ∈ mkeys frozen :=
          keyset_iff_of_subset_length hnl hnf hsub hlen
        cases hadd : addLocalSeedDictLoop r.participant_pk sd
            r.local_seed_dict with
        | mk o sd2 =>
          have ho : o = none := by rw [← hloop, hadd]
          subst ho
          refine ⟨fun h => absurd rfl h, fun _ => ?_⟩
          have hsd2 : (addLocalSeedDictLoop r.participant_pk sd
              r.local_seed_dict).2 = sd2 := by rw [hadd]
          have hsd2keys : mkeys sd2 = mkeys sd := by
            rw [← hsd2, loop_keys]
          constructor
          · intro k
            simp only [hsd2keys]
            exact hkeys k
          constructor
          · simpa only [hsd2keys] using hnd
          · intro d2 hd2
            obtain ⟨k, hk⟩ := (mem_mvalues_iff sd2 d2).mp hd2
            have hknd2 : (mkeys sd2).Nodup := by simpa only [hsd2keys] using hnd
            have hlk2 : mlookup sd2 k = some d2 :=
              (entry_mem_iff_mlookup sd2 k d2 hknd2).mp hk
            have hkmem2 : k ∈ mkeys sd2 :=
              (mem_mkeys_iff_entry sd2 k).mpr ⟨d2, hk⟩
            have hkmem : k ∈ mkeys sd := by rwa [hsd2keys] at hkmem2
            have hklsd : k ∈ mkeys r.local_seed_dict :=
              (hiff_lf k).mpr ((hkeys k).mp hkmem)
            obtain ⟨seed, hseed⟩ : ∃ seed, mlookup r.local_seed_dict k = some seed := by
              cases hx : mlookup r.local_seed_dict k with
              | none => exact absurd ((mlookup_eq_none_iff _ _).mp hx) (by simp [hklsd])
              | some v => exact ⟨v, rfl⟩
            have hlkm := loop_lookup_mem r.participant_pk r.local_seed_dict hnl
              sd k seed hseed hloop
            rw [hsd2] at hlkm
            obtain ⟨d, hd⟩ : ∃ d, mlookup sd k = some d := by
              cases hx : mlookup sd k with
              | none => exact absurd ((mlookup_eq_none_iff _ _).mp hx) (by simp [hkmem])
              | some v => exact ⟨v, rfl⟩
            rw [hlk2, hd] at hlkm
            have hd2eq : d2 = minsert d r.participant_pk seed := by
              simpa using hlkm
            have hdval : d ∈ mvalues sd :=
              (mem_mvalues_iff sd d).mpr
                ⟨k, (entry_mem_iff_mlookup sd k d hnd).mpr hd⟩
            obtain ⟨hdA, hdnd⟩ := hinner d hdval
            have hpkA : r.participant_pk ∉ A := by
              cases hv : mvalues sd with
              | nil => rw [hv] at hdval; cases hdval
              | cons d0 rest0 =>
                have hd0 : d0 ∈ mvalues sd := by
                  rw [hv]; exact List.mem_cons_self d0 rest0
                have hfree0 : mcontains d0 r.participant_pk = false :=
                  hfree d0 (by rw [hv]; rfl)
                have hA0 : mkeys d0 = A := (hinner d0 hd0).1
                intro hmem
                have : mcontains d0 r.participant_pk = true :=
                  (mcontains_iff _ _).mpr (by rw [hA0]; exact hmem)
                rw [hfree0] at this
                exact Bool.noConfusion this
            have hpkd : r.participant_pk ∉ mkeys d := by rw [hdA]; exact hpkA
            have hkeys2 : mkeys d2 = A ++ [r.participant_pk] := by
              rw [hd2eq, mkeys_minsert_not_mem d r.participant_pk seed hpkd, hdA]
            refine ⟨hkeys2, ?_⟩
            rw [hkeys2]
            have hAnd : A.Nodup := by rw [← hdA]; exact hdnd
            simp [List.nodup_append, hAnd, hpkA]
      · have heq := add_eq_err_of_not_check s.frozen_sum_dict s.seed_dict
          r.participant_pk r.local_seed_dict hc
        rw [heq]
        exact ⟨fun _ => rfl, fun h => Option.noConfusion h⟩

/-- Running a request sequence from an invariant-satisfying state keeps
the invariant, with every inner key list extended by exactly the accepted
pks. -/
theorem runUpdates_inv (frozen : SumDict) (reqs : List UpdateRequest) :
    ∀ (sd : SeedDict) (magg sagg : Aggregation) (A : List ℕ),
    (mkeys frozen).Nodup
    → (∀ k, k ∈ mkeys sd ↔ k ∈ mkeys frozen)
    → (mkeys sd).Nodup
    → (∀ d ∈ mvalues sd, mkeys d = A ∧ (mkeys d).Nodup)
    → (∀ r ∈ reqs, (mkeys r.local_seed_dict).Nodup)
    → (∀ k, k ∈ mkeys (runUpdates (UpdateState.mk frozen sd magg sagg)
          reqs).seed_dict ↔ k ∈ mkeys frozen)
      ∧ (mkeys (runUpdates (UpdateState.mk frozen sd magg sagg)
          reqs).seed_dict).Nodup
      ∧ (∀ d ∈ mvalues (runUpdates (UpdateState.mk frozen sd magg sagg)
            reqs).seed_dict,
          mkeys d
            = A ++ acceptedPks (UpdateState.mk frozen sd magg sagg) reqs
          ∧ (mkeys d).Nodup) := by
  induction reqs with
  | nil =>
    intro sd magg sagg A hnf hkeys hnd hinner _
    refine ⟨hkeys, hnd, ?_⟩
    intro d hd
    simpa [runUpdates, acceptedPks] using hinner d hd
  | cons r rest ih =>
    intro sd magg sagg A hnf hkeys hnd hinner hreq
    have hstep := handle_update_step frozen sd magg sagg r A hnf hkeys hnd
      hinner (hreq r (List.mem_cons_self r rest))
    have hreq2 : ∀ q ∈ rest, (mkeys q.local_seed_dict).Nodup :=
      fun q hq => hreq q (List.mem_cons_of_mem r hq)
    cases hh : handle_update (UpdateState.mk frozen sd magg sagg) r with
    | mk o s2 =>
      cases o with
      | none =>
        have hfro : s2.frozen_sum_dict = frozen := by
          have h1 := handle_update_step frozen sd magg sagg r A hnf hkeys
            hnd hinner (hreq r (List.mem_cons_self r rest))
          -- frozen_sum_dict is never modified by the handler
          cases hm1 : (UpdateState.mk frozen sd magg
              sagg).model_agg.validate_aggregation r.masked_model with
          | false =>
            rw [handle_update_model_fail _ r hm1] at hh
            cases hh
          | true =>
            cases hm2 : (UpdateState.mk frozen sd magg
                sagg).scalar_agg.validate_aggregation r.masked_scalar with
            | false =>
              rw [handle_update_scalar_fail _ r hm1 hm2] at hh
              cases hh
            | true =>
              rw [handle_update_validations_pass _ r hm1 hm2] at hh
              cases hadd : add_local_seed_dict frozen sd r.participant_pk
                  r.local_seed_dict with
              | mk o2 sd2 =>
                rw [hadd] at hh
                cases o2 with
                | none => cases hh; rfl
                | some e => cases hh
        obtain ⟨hk2, hnd2, hin2⟩ := hstep.2 (by rw [hh])
        rw [hh] at hk2 hnd2 hin2
        have hs2 : s2 = UpdateState.mk frozen s2.seed_dict s2.model_agg
            s2.scalar_agg := by
          cases s2
          simp_all
        rw [runUpdates, acceptedPks, hh]
        have := ih s2.seed_dict s2.model_agg s2.scalar_agg
          (A ++ [r.participant_pk]) hnf hk2 hnd2 hin2 hreq2
        rw [← hs2] at this
        refine ⟨this.1, this.2.1, ?_⟩
        intro d hd
        obtain ⟨h1, h2⟩ := this.2.2 d hd
        refine ⟨?_, h2⟩
        rw [h1, List.append_assoc]
        rfl
      | some e =>
        have hs2eq : s2 = UpdateState.mk frozen sd magg sagg := by
          have := hstep.1 (by rw [hh]; exact fun h => Option.noConfusion h)
          rw [hh] at this
          exact this
        rw [runUpdates, acceptedPks, hh, hs2eq]
        exact ih sd magg sagg A hnf hkeys hnd hinner hreq2

/-! ## Lemmas about the byte codec -/

theorem leBytes_length (w : ℕ) : ∀ n, (leBytes w n).length = w := by
  induction w with
  | zero => intro n; rfl
  | succ w ih =>
    intro n
    simp only [leBytes, List.length_cons, ih]

theorem leFromBytes_leBytes (w : ℕ) : ∀ n, n < 256 ^ w
    → leFromBytes (leBytes w n) = n := by
  induction w with
  | zero =>
    intro n h
    simp only [pow_zero, Nat.lt_one_iff] at h
    subst h
    rfl
  | succ w ih =>
    intro n h
    have hdiv : n / 256 < 256 ^ w := by
      rw [Nat.div_lt_iff_lt_mul (by norm_num : 0 < 256)]
      calc n < 256 ^ (w + 1) := h
        _ = 256 ^ w * 256 := by rw [pow_succ]
    simp only [leBytes, leFromBytes, ih (n / 256) hdiv]
    omega

theorem flatten_map_leBytes_length (w : ℕ) (l : List ℕ) :
    ((l.map (leBytes w)).flatten).length = l.length * w := by
  induction l with
  | nil => simp
  | cons a rest ih =>
    simp only [List.map_cons, List.flatten_cons, List.length_append,
      leBytes_length, ih, List.length_cons]
    ring

theorem chunk_extract (w : ℕ) (l : List ℕ) :
    ∀ (e : List ℕ) (i : ℕ), i < l.length
      → (((l.map (leBytes w)).flatten ++ e).drop (i * w)).take w
          = leBytes w (l.getD i 0) := by
  induction l with
  | nil =>
    intro e i h
    exact absurd h (by simp)
  | cons a rest ih =>
    intro e i h
    simp only [List.map_cons, List.flatten_cons, List.append_assoc]
    cases i with
    | zero =>
      simp only [Nat.zero_mul, List.drop_zero, List.getD_cons_zero]
      exact List.take_left' (leBytes_length w a)
    | succ i =>
      have hstep : (leBytes w a ++
            ((rest.map (leBytes w)).flatten ++ e)).drop ((i + 1) * w)
          = ((rest.map (leBytes w)).flatten ++ e).drop (i * w) := by
        have h1 : (i + 1) * w = w + i * w := by ring
        rw [h1, ← List.drop_drop, List.drop_left' (leBytes_length w a)]
      rw [hstep, List.getD_cons_succ]
      exact ih e i (by simpa using h)

theorem range_map_getD {α : Type} [Inhabited α] (l : List α) :
    (List.range l.length).map (fun i => l.getD i default) = l := by
  induction l with
  | nil => rfl
  | cons a rest ih =>
    rw [List.length_cons, List.range_succ_eq_map, List.map_cons,
      List.map_map]
    simp only [List.getD_cons_zero]
    congr 1

theorem lt_pow_bpnOfOrder {x order : ℕ} (h : x < order) :
    x < 256 ^ bpnOfOrder order := by
  have h1 : x ≤ order - 1 := by omega
  have h2 : order - 1 < 256 ^ (Nat.log 256 (order - 1) + 1) :=
    Nat.lt_pow_succ_log_self (by norm_num) (order - 1)
  calc x ≤ order - 1 := h1
    _ < 256 ^ (Nat.log 256 (order - 1) + 1) := h2

theorem maskMany_to_bytes_length (m : MaskMany) :
    (MaskMany.to_bytes m).length = MaskMany.buffer_length m := by
  simp only [MaskMany.to_bytes, MaskMany.buffer_length, List.length_append,
    leBytes_length, flatten_map_leBytes_length, maskHeaderLength]

theorem maskOne_to_bytes_length (m : MaskOne) :
    (MaskOne.to_bytes m).length = MaskOne.buffer_length m := by
  simp only [MaskOne.to_bytes, maskMany_to_bytes_length,
    MaskMany.buffer_length, MaskMany.new, MaskOne.buffer_length,
    List.length_cons, List.length_nil]
  omega

theorem maskMany_header (m : MaskMany) (extra : List ℕ)
    (hord : m.config.order < 256 ^ 8)
    (hcnt : m.data.length < 256 ^ 4) :
    leFromBytes ((MaskMany.to_bytes m ++ extra).take 8) = m.config.order
    ∧ leFromBytes (((MaskMany.to_bytes m ++ extra).drop 8).take 4)
        = m.data.length := by
  have h8 : (MaskMany.to_bytes m ++ extra).take 8 = leBytes 8 m.config.order := by
    rw [MaskMany.to_bytes, List.append_assoc, List.append_assoc]
    exact List.take_left' (leBytes_length 8 m.config.order)
  have hdrop8 : (MaskMany.to_bytes m ++ extra).drop 8
      = leBytes 4 m.data.length
        ++ ((m.data.map (leBytes (bytesPerNumber m.config))).flatten ++ extra) := by
    rw [MaskMany.to_bytes, List.append_assoc, List.append_assoc]
    exact List.drop_left' (leBytes_length 8 m.config.order)
  have h4 : ((MaskMany.to_bytes m ++ extra).drop 8).take 4
      = leBytes 4 m.data.length := by
    rw [hdrop8]
    exact List.take_left' (leBytes_length 4 m.data.length)
  exact ⟨by rw [h8]; exact leFromBytes_leBytes 8 _ hord,
    by rw [h4]; exact leFromBytes_leBytes 4 _ hcnt⟩

theorem maskObjectLen_to_bytes (m : MaskMany) (extra : List ℕ)
    (hord : m.config.order < 256 ^ 8)
    (hcnt : m.data.length < 256 ^ 4) :
    maskObjectLen (MaskMany.to_bytes m ++ extra) = MaskMany.buffer_length m := by
  obtain ⟨h1, h2⟩ := maskMany_header m extra hord hcnt
  rw [maskObjectLen, h1, h2, MaskMany.buffer_length]
  simp only [bytesPerNumber]

theorem maskObjectBufferNew_to_bytes (m : MaskMany) (extra : List ℕ)
    (hord : m.config.order < 256 ^ 8)
    (hcnt : m.data.length < 256 ^ 4) :
    maskObjectBufferNew (MaskMany.to_bytes m ++ extra)
      = Except.ok (MaskMany.buffer_length m) := by
  have hlen : (MaskMany.to_bytes m ++ extra).length
      = MaskMany.buffer_length m + extra.length := by
    rw [List.length_append, maskMany_to_bytes_length]
  have hbl : maskHeaderLength ≤ MaskMany.buffer_length m := by
    rw [MaskMany.buffer_length]
    omega
  rw [maskObjectBufferNew, maskObjectLen_to_bytes m extra hord hcnt,
    if_neg (by omega), if_neg (by omega)]

theorem maskMany_roundtrip (m : MaskMany) (extra : List ℕ)
    (hvalid : MaskMany.is_valid m = true)
    (hord : m.config.order < 256 ^ 8)
    (hcnt : m.data.length < 256 ^ 4) :
    MaskMany.from_bytes (MaskMany.to_bytes m ++ extra) = Except.ok m := by
  obtain ⟨h1, h2⟩ := maskMany_header m extra hord hcnt
  have hlen : (MaskMany.to_bytes m ++ extra).length
      = MaskMany.buffer_length m + extra.length := by
    rw [List.length_append, maskMany_to_bytes_length]
  have hge : maskHeaderLength + m.data.length * bpnOfOrder m.config.order
      ≤ (MaskMany.to_bytes m ++ extra).length := by
    rw [hlen, MaskMany.buffer_length]
    simp only [bytesPerNumber]
    omega
  have hvalid2 : ∀ x ∈ m.data, x < m.config.order := by
    simpa [MaskMany.is_valid, List.all_eq_true] using hvalid
  have hdata : (List.range (m.data.length)).map
      (fun i => leFromBytes
        (((MaskMany.to_bytes m ++ extra).drop
            (maskHeaderLength + i * bpnOfOrder m.config.order)).take
          (bpnOfOrder m.config.order)))
      = m.data := by
    have hdrop12 : (MaskMany.to_bytes m ++ extra).drop maskHeaderLength
        = (m.data.map (leBytes (bpnOfOrder m.config.order))).flatten
            ++ extra := by
      have hlen2 : (leBytes 8 m.config.order
          ++ leBytes 4 m.data.length).length = maskHeaderLength := by
        rw [List.length_append, leBytes_length, leBytes_length]
        rfl
      rw [MaskMany.to_bytes, List.append_assoc]
      simp only [bytesPerNumber]
      exact List.drop_left' hlen2
    have hmap : ∀ i ∈ List.range m.data.length,
        leFromBytes
          (((MaskMany.to_bytes m ++ extra).drop
              (maskHeaderLength + i * bpnOfOrder m.config.order)).take
            (bpnOfOrder m.config.order)) = m.data.getD i 0 := by
      intro i hi
      rw [List.mem_range] at hi
      rw [← List.drop_drop, hdrop12,
        chunk_extract (bpnOfOrder m.config.order) m.data extra i hi]
      apply leFromBytes_leBytes
      apply lt_pow_bpnOfOrder
      apply hvalid2
      rw [List.getD_eq_getElem m.data 0 hi]
      exact List.getElem_mem hi
    rw [List.map_congr_left hmap]
    exact range_map_getD m.data
  simp only [MaskMany.from_bytes]
  rw [if_neg (by omega)]
  simp only [h1, h2]
  rw [if_neg (by omega)]
  rw [hdata]
  have hall : m.data.all (fun x => decide (x < m.config.order)) = true := by
    simp only [List.all_eq_true, decide_eq_true_eq]
    exact hvalid2
  rw [hall]
  simp only [if_true]
  clear hvalid hord hcnt h1 h2 hlen hge hvalid2 hdata hall
  cases m with
  | mk data config =>
    cases config with
    | mk order => rfl

theorem maskOne_roundtrip (m : MaskOne) (extra : List ℕ)
    (hvalid : MaskOne.is_valid m = true)
    (hord : m.config.order < 256 ^ 8) :
    MaskOne.from_bytes (MaskOne.to_bytes m ++ extra) = Except.ok m := by
  have hm : MaskMany.is_valid (MaskMany.new m.config [m.data]) = true := by
    simp only [MaskOne.is_valid, decide_eq_true_eq] at hvalid
    simp only [MaskMany.is_valid, MaskMany.new, List.all_cons, List.all_nil,
      Bool.and_true, decide_eq_true_eq]
    exact hvalid
  have h := maskMany_roundtrip (MaskMany.new m.config [m.data]) extra hm
    hord (by simp [MaskMany.new])
  rw [MaskOne.to_bytes]
  simp only [MaskOne.from_bytes, h]
  cases m with
  | mk data config => rfl

theorem sum2_drop64 (m : Sum2)
    (hsig : m.sum_signature.length = sumSignatureLength) :
    (Sum2.to_bytes m).drop sumSignatureLength
      = MaskMany.to_bytes m.model_mask.vector
        ++ MaskOne.to_bytes m.model_mask.scalar := by
  rw [Sum2.to_bytes, List.append_assoc]
  exact List.drop_left' hsig

theorem sum2_take64 (m : Sum2)
    (hsig : m.sum_signature.length = sumSignatureLength) :
    (Sum2.to_bytes m).take sumSignatureLength = m.sum_signature := by
  rw [Sum2.to_bytes, List.append_assoc]
  exact List.take_left' hsig

theorem sum2_drop_scalar (m : Sum2)
    (hsig : m.sum_signature.length = sumSignatureLength) :
    (Sum2.to_bytes m).drop
        (sumSignatureLength + MaskMany.buffer_length m.model_mask.vector)
      = MaskOne.to_bytes m.model_mask.scalar := by
  rw [← List.drop_drop, sum2_drop64 m hsig]
  exact List.drop_left' (maskMany_to_bytes_length m.model_mask.vector)

/-! ## Claim theorems -/

/-- C9: the `empty` constructors do not produce size-shaped zero objects:
`MaskMany::empty(config, size)` has a data vector of length 0 for every
`size` (the argument only pre-allocates capacity), `MaskOne::empty` holds
the value 1 rather than 0, and consequently
`MaskObject::empty(cv, cs, size).vector.data` is empty for every size. -/
theorem mask_empty_constructors (cv cs : MaskConfig) (size : ℕ) :
    (MaskMany.empty cv size).data.length = 0
    ∧ (MaskOne.empty cs).data = 1
    ∧ (MaskOne.empty cs).data ≠ 0
    ∧ (MaskObject.empty cv cs size).vector.data = [] :=
  ⟨rfl, rfl, one_ne_zero, rfl⟩

/-- C4: `MaskMany::new_checked(config, data)` fails with
`InvalidMaskObjectError` iff some element of `data` is `≥ config.order`,
and `MaskOne::new_checked(config, data)` fails iff `data ≥ config.order`;
on `Ok` the returned object holds exactly the given config and data. -/
theorem new_checked_correct (config : MaskConfig) (data : List ℕ) (d : ℕ) :
    (MaskMany.new_checked config data
        = Except.error InvalidMaskObjectError.invalidMaskObject
      ↔ ∃ x ∈ data, config.order ≤ x)
    ∧ (∀ m, MaskMany.new_checked config data = Except.ok m
        → m.config = config ∧ m.data = data)
    ∧ (MaskOne.new_checked config d
        = Except.error InvalidMaskObjectError.invalidMaskObject
      ↔ config.order ≤ d)
    ∧ (∀ m, MaskOne.new_checked config d = Except.ok m
        → m.config = config ∧ m.data = d) := by
  have hunfm : MaskMany.new_checked config data
      = (if (MaskMany.new config data).is_valid
          then Except.ok (MaskMany.new config data)
          else Except.error InvalidMaskObjectError.invalidMaskObject) := rfl
  have hunfo : MaskOne.new_checked config d
      = (if (MaskOne.new config d).is_valid
          then Except.ok (MaskOne.new config d)
          else Except.error InvalidMaskObjectError.invalidMaskObject) := rfl
  refine ⟨?_, ?_, ?_, ?_⟩
  · rw [hunfm]
    by_cases h : (MaskMany.new config data).is_valid = true
    · rw [if_pos h]
      simp only [MaskMany.is_valid, MaskMany.new, List.all_eq_true,
        decide_eq_true_eq] at h
      exact ⟨fun hc => Except.noConfusion hc,
        fun ⟨x, hx, hge⟩ => absurd (h x hx) (not_lt.mpr hge)⟩
    · rw [if_neg h]
      simp only [MaskMany.is_valid, MaskMany.new, List.all_eq_true,
        decide_eq_true_eq] at h
      push_neg at h
      obtain ⟨x, hx, hge⟩ := h
      exact ⟨fun _ => ⟨x, hx, hge⟩, fun _ => rfl⟩
  · intro m hm
    rw [hunfm] at hm
    by_cases h : (MaskMany.new config data).is_valid = true
    · rw [if_pos h] at hm
      cases hm; exact ⟨rfl, rfl⟩
    · rw [if_neg h] at hm
      exact Except.noConfusion hm
  · rw [hunfo]
    by_cases h : (MaskOne.new config d).is_valid = true
    · rw [if_pos h]
      simp only [MaskOne.is_valid, MaskOne.new, decide_eq_true_eq] at h
      exact ⟨fun hc => Except.noConfusion hc,
        fun hge => absurd h (not_lt.mpr hge)⟩
    · rw [if_neg h]
      simp only [MaskOne.is_valid, MaskOne.new, decide_eq_true_eq] at h
      exact ⟨fun _ => not_lt.mp h, fun _ => rfl⟩
  · intro m hm
    rw [hunfo] at hm
    by_cases h : (MaskOne.new config d).is_valid = true
    · rw [if_pos h] at hm
      cases hm; exact ⟨rfl, rfl⟩
    · rw [if_neg h] at hm
      exact Except.noConfusion hm

/-- Witness for C4 at concrete inputs: order 5, vector `[1, 7]` (7 ≥ 5)
and scalar 3 (3 < 5). -/
theorem new_checked_correct_witness :
    (MaskMany.new_checked (MaskConfig.mk 5) [1, 7]
        = Except.error InvalidMaskObjectError.invalidMaskObject)
    ∧ (MaskOne.new (MaskConfig.mk 5) 3).config = MaskConfig.mk 5
      ∧ (MaskOne.new (MaskConfig.mk 5) 3).data = 3 :=
  ⟨(new_checked_correct (MaskConfig.mk 5) [1, 7] 3).1.mpr ⟨7, by decide, by decide⟩,
   (new_checked_correct (MaskConfig.mk 5) [1, 7] 3).2.2.2
     (MaskOne.new (MaskConfig.mk 5) 3) rfl⟩

/-- C10: `InMemoryApiClient::get_seeds(pk)` returns `Ok(None)` both when
no seed dictionary has been broadcast yet (the fetcher yields no
snapshot) and when a snapshot exists but has no entry for `pk`; when an
entry exists it returns `Ok(Some _)` of exactly the inner map for `pk` —
never an error in either `None` case. -/
theorem get_seeds_conflates_absences (pk : ℕ) (d : SeedDict)
    (inner : UpdateSeedDict) :
    (get_seeds (Except.ok none) pk = Except.ok none)
    ∧ (mlookup d pk = none
        → get_seeds (Except.ok (some d)) pk = Except.ok none)
    ∧ (mlookup d pk = some inner
        → get_seeds (Except.ok (some d)) pk = Except.ok (some inner)) := by
  refine ⟨rfl, ?_, ?_⟩
  · intro h; simp [get_seeds, Option.bind, h]
  · intro h; simp [get_seeds, Option.bind, h]

/-- Witness for C10: a one-entry seed dict, probed at a missing and at a
present key. -/
theorem get_seeds_conflates_absences_witness :
    (get_seeds (Except.ok (some [(4, [(9, 7)])])) 3 = Except.ok none)
    ∧ (get_seeds (Except.ok (some [(4, [(9, 7)])])) 4
        = Except.ok (some [(9, 7)])) :=
  ⟨(get_seeds_conflates_absences 3 [(4, [(9, 7)])] []).2.1 (by decide),
   (get_seeds_conflates_absences 4 [(4, [(9, 7)])] [(9, 7)]).2.2 (by decide)⟩

/-- C6: the sum pre-processor returns `InvalidSumSignature` when the sum
signature is not a valid detached signature by `header.participant_pk`
over `seed || "sum"`, `NotSumEligible` when the signature is valid but
not sum-eligible, and otherwise `Ok` of a message whose header and Sum
payload are the inputs unchanged.  It is parametrized by the crypto
primitives and consumes only its arguments, so it mutates no coordinator
state by construction. -/
theorem sum_pre_processor_correct (verify : ℕ → ℕ → List ℕ → Bool)
    (isEligible : ℕ → ℚ → Bool) (header : Header) (message : Sum)
    (params : RoundParameters) :
    (verify header.participant_pk message.sum_signature
        (params.seed ++ sumTaskTag) = false
      → sumPreProcessorCall verify isEligible header message params
          = Except.error PreProcessorError.invalidSumSignature)
    ∧ (verify header.participant_pk message.sum_signature
        (params.seed ++ sumTaskTag) = true
      → isEligible message.sum_signature params.sum = false
      → sumPreProcessorCall verify isEligible header message params
          = Except.error PreProcessorError.notSumEligible)
    ∧ (verify header.participant_pk message.sum_signature
        (params.seed ++ sumTaskTag) = true
      → isEligible message.sum_signature params.sum = true
      → sumPreProcessorCall verify isEligible header message params
          = Except.ok { header := header, payload := Payload.sum message }) := by
  refine ⟨?_, ?_, ?_⟩
  · intro h
    simp [sumPreProcessorCall, has_valid_sum_signature, h]
  · intro h1 h2
    simp [sumPreProcessorCall, has_valid_sum_signature, is_eligible_for_sum_task,
      h1, h2]
  · intro h1 h2
    simp [sumPreProcessorCall, has_valid_sum_signature, is_eligible_for_sum_task,
      h1, h2]

/-- Witness for C6: all three branches exercised with concrete verifier
and eligibility functions. -/
theorem sum_pre_processor_correct_witness :
    (sumPreProcessorCall (fun _ _ _ => false) (fun _ _ => true)
        (Header.mk 0 1) (Sum.mk 2 3) (RoundParameters.mk [7] (1/2))
      = Except.error PreProcessorError.invalidSumSignature)
    ∧ (sumPreProcessorCall (fun _ _ _ => true) (fun _ _ => false)
        (Header.mk 0 1) (Sum.mk 2 3) (RoundParameters.mk [7] (1/2))
      = Except.error PreProcessorError.notSumEligible)
    ∧ (sumPreProcessorCall (fun _ _ _ => true) (fun _ _ => true)
        (Header.mk 0 1) (Sum.mk 2 3) (RoundParameters.mk [7] (1/2))
      = Except.ok
          { header := Header.mk 0 1, payload := Payload.sum (Sum.mk 2 3) }) :=
  ⟨(sum_pre_processor_correct (fun _ _ _ => false) (fun _ _ => true)
      (Header.mk 0 1) (Sum.mk 2 3) (RoundParameters.mk [7] (1/2))).1 rfl,
   (sum_pre_processor_correct (fun _ _ _ => true) (fun _ _ => false)
      (Header.mk 0 1) (Sum.mk 2 3) (RoundParameters.mk [7] (1/2))).2.1 rfl rfl,
   (sum_pre_processor_correct (fun _ _ _ => true) (fun _ _ => true)
      (Header.mk 0 1) (Sum.mk 2 3) (RoundParameters.mk [7] (1/2))).2.2 rfl rfl⟩

/-- C1: update-handler atomicity — an update request that fails the model
aggregation validation, the scalar aggregation validation, or the
local-seed-dict validation is answered with `AggregationFailed` resp.
`InvalidLocalSeedDict`, and the entire Update phase state (seed_dict,
model_agg, scalar_agg, frozen_sum_dict) after handling equals the state
before handling. -/
theorem handle_update_atomic (s : UpdateState) (req : UpdateRequest) :
    (s.model_agg.validate_aggregation req.masked_model = false
      → handle_update s req = (some StateMachineError.aggregationFailed, s))
    ∧ (s.model_agg.validate_aggregation req.masked_model = true
      → s.scalar_agg.validate_aggregation req.masked_scalar = false
      → handle_update s req = (some StateMachineError.aggregationFailed, s))
    ∧ (s.model_agg.validate_aggregation req.masked_model = true
      → s.scalar_agg.validate_aggregation req.masked_scalar = true
      → seedDictCheck s.frozen_sum_dict s.seed_dict req.participant_pk
          req.local_seed_dict = false
      → handle_update s req
          = (some StateMachineError.invalidLocalSeedDict, s)) := by
  refine ⟨?_, ?_, ?_⟩
  · intro h
    simp [handle_update, h]
  · intro h1 h2
    simp [handle_update, h1, h2]
  · intro h1 h2 h3
    simp [handle_update, h1, h2, add_local_seed_dict, h3]

/-- Witness for C1: a concrete state with one sum participant; three
requests failing respectively the model validation (wrong vector length),
the scalar validation (wrong scalar-vector length), and the seed-dict
validation (empty local seed dict). -/
theorem handle_update_atomic_witness :
    (handle_update
        (UpdateState.mk [(1, 10)] [(1, [])]
          (Aggregation.new (MaskConfig.mk 5) 2) (Aggregation.new (MaskConfig.mk 5) 1))
        (UpdateRequest.mk 8 [(1, 3)]
          (MaskObject.new (MaskMany.new (MaskConfig.mk 5) [0, 0, 0])
            (MaskOne.new (MaskConfig.mk 5) 1))
          (MaskObject.new (MaskMany.new (MaskConfig.mk 5) [0])
            (MaskOne.new (MaskConfig.mk 5) 1)))
      = (some StateMachineError.aggregationFailed,
          UpdateState.mk [(1, 10)] [(1, [])]
            (Aggregation.new (MaskConfig.mk 5) 2)
            (Aggregation.new (MaskConfig.mk 5) 1)))
    ∧ (handle_update
        (UpdateState.mk [(1, 10)] [(1, [])]
          (Aggregation.new (MaskConfig.mk 5) 2) (Aggregation.new (MaskConfig.mk 5) 1))
        (UpdateRequest.mk 8 [(1, 3)]
          (MaskObject.new (MaskMany.new (MaskConfig.mk 5) [0, 0])
            (MaskOne.new (MaskConfig.mk 5) 1))
          (MaskObject.new (MaskMany.new (MaskConfig.mk 5) [0, 0])
            (MaskOne.new (MaskConfig.mk 5) 1)))
      = (some StateMachineError.aggregationFailed,
          UpdateState.mk [(1, 10)] [(1, [])]
            (Aggregation.new (MaskConfig.mk 5) 2)
            (Aggregation.new (MaskConfig.mk 5) 1)))
    ∧ (handle_update
        (UpdateState.mk [(1, 10)] [(1, [])]
          (Aggregation.new (MaskConfig.mk 5) 2) (Aggregation.new (MaskConfig.mk 5) 1))
        (UpdateRequest.mk 8 []
          (MaskObject.new (MaskMany.new (MaskConfig.mk 5) [0, 0])
            (MaskOne.new (MaskConfig.mk 5) 1))
          (MaskObject.new (MaskMany.new (MaskConfig.mk 5) [0])
            (MaskOne.new (MaskConfig.mk 5) 1)))
      = (some StateMachineError.invalidLocalSeedDict,
          UpdateState.mk [(1, 10)] [(1, [])]
            (Aggregation.new (MaskConfig.mk 5) 2)
            (Aggregation.new (MaskConfig.mk 5) 1))) :=
  ⟨(handle_update_atomic _ _).1 (by decide),
   (handle_update_atomic _ _).2.1 (by decide) (by decide),
   (handle_update_atomic _ _).2.2 (by decide) (by decide) (by decide)⟩

/-- C8: pre-population makes the insertion-loop error unreachable — if
every key of the frozen sum dict is a key of the seed dict (the
pre-populated inner maps), then for a local seed dict that passed the
key-set check the `ok_or(InvalidLocalSeedDict)` branch inside the
insertion loop is never taken: the loop ends in `Ok`, so
`add_local_seed_dict` only inserts into existing inner maps and cannot
fail after its first mutation. -/
theorem insertion_loop_error_unreachable (frozen : SumDict) (sd : SeedDict)
    (pk : ℕ) (lsd : LocalSeedDict)
    (hpre : ∀ k ∈ mkeys frozen, k ∈ mkeys sd)
    (hcheck : seedDictCheck frozen sd pk lsd = true) :
    (addLocalSeedDictLoop pk sd lsd).1 = none
    ∧ (add_local_seed_dict frozen sd pk lsd).1 = none := by
  obtain ⟨_, hsub, _⟩ := seedDictCheck_spec frozen sd pk lsd hcheck
  have hloop := loop_ok_of_subset pk lsd sd (fun k hk => hpre k (hsub k hk))
  refine ⟨hloop, ?_⟩
  rw [add_eq_loop_of_check frozen sd pk lsd hcheck]
  exact hloop

/-- Witness for C8: one sum participant, pre-populated seed dict, a local
seed dict with exactly that key. -/
theorem insertion_loop_error_unreachable_witness :
    (addLocalSeedDictLoop 8 [(1, [])] [(1, 3)]).1 = none
    ∧ (add_local_seed_dict [(1, 10)] [(1, [])] 8 [(1, 3)]).1 = none :=
  insertion_loop_error_unreachable [(1, 10)] [(1, [])] 8 [(1, 3)]
    (by decide) (by decide)

/-- C2: `add_local_seed_dict` raises iff invalid — in a phase state whose
seed dict is pre-populated (every frozen key has an inner map) and whose
inner maps agree on membership of the updater pk (the Update-phase
invariant; the Rust code probes only the first inner map),
`add_local_seed_dict` returns `Err(InvalidLocalSeedDict)` iff the key-set
of the local seed dict does not exactly equal the frozen sum dict's
key-set or the updater pk is already present in some inner map; no other
error is ever produced; and on `Ok` it inserts `(pk → seed)` into the
inner map of every sum pk of the local dict. -/
theorem add_local_seed_dict_correct (frozen : SumDict) (sd : SeedDict)
    (pk : ℕ) (lsd : LocalSeedDict)
    (hnl : (mkeys lsd).Nodup) (hnf : (mkeys frozen).Nodup)
    (hpre : ∀ k ∈ mkeys frozen, k ∈ mkeys sd)
    (hagree : ∀ d1 ∈ mvalues sd, ∀ d2 ∈ mvalues sd,
      mcontains d1 pk = mcontains d2 pk) :
    ((add_local_seed_dict frozen sd pk lsd).1 = none
      ∨ (add_local_seed_dict frozen sd pk lsd).1
          = some StateMachineError.invalidLocalSeedDict)
    ∧ ((add_local_seed_dict frozen sd pk lsd).1
          = some StateMachineError.invalidLocalSeedDict
      ↔ (¬ ∀ k, k ∈ mkeys lsd ↔ k ∈ mkeys frozen)
        ∨ ∃ d ∈ mvalues sd, mcontains d pk = true)
    ∧ ((add_local_seed_dict frozen sd pk lsd).1 = none
      → ∀ sum_pk seed, mlookup lsd sum_pk = some seed
        → mlookup (add_local_seed_dict frozen sd pk lsd).2 sum_pk
            = (mlookup sd sum_pk).map (fun inner => minsert inner pk seed)) := by
  by_cases hcheck : seedDictCheck frozen sd pk lsd = true
  · have heq := add_eq_loop_of_check frozen sd pk lsd hcheck
    obtain ⟨hlen, hsub, hfree⟩ := seedDictCheck_spec frozen sd pk lsd hcheck
    have hloop := loop_ok_of_subset pk lsd sd (fun k hk => hpre k (hsub k hk))
    have hiff := keyset_iff_of_subset_length hnl hnf hsub hlen
    refine ⟨Or.inl (by rw [heq]; exact hloop), ?_, ?_⟩
    · rw [heq]
      constructor
      · intro hc
        rw [hloop] at hc
        exact Option.noConfusion hc
      · rintro (hc | ⟨d, hd, hcd⟩)
        · exact absurd hiff hc
        · cases hv : mvalues sd with
          | nil => rw [hv] at hd; cases hd
          | cons d0 drest =>
            have hd0 : d0 ∈ mvalues sd := by rw [hv]; exact List.mem_cons_self d0 drest
            have hfree0 : mcontains d0 pk = false := hfree d0 (by rw [hv]; rfl)
            have := hagree d hd d0 hd0
            rw [hcd, hfree0] at this
            exact Bool.noConfusion this
    · intro _ sum_pk seed hlk
      rw [heq]
      exact loop_lookup_mem pk lsd hnl sd sum_pk seed hlk hloop
  · have heq := add_eq_err_of_not_check frozen sd pk lsd hcheck
    refine ⟨Or.inr (by rw [heq]), ?_, ?_⟩
    · rw [heq]
      simp only [true_iff]
      by_cases h1 : (mkeys lsd).length = (mkeys frozen).length
      · by_cases h2 : ∀ k ∈ mkeys lsd, k ∈ mkeys frozen
        · by_cases h3 : ∀ d, (mvalues sd).head? = some d → mcontains d pk = false
          · exact absurd (seedDictCheck_true_of frozen sd pk lsd h1 h2 h3) hcheck
          · push_neg at h3
            obtain ⟨d, hd, hcd⟩ := h3
            exact Or.inr ⟨d, head?_mem hd, by
              cases hcdv : mcontains d pk with
              | false => exact absurd hcdv hcd
              | true => rfl⟩
        · push_neg at h2
          obtain ⟨k, hk, hnk⟩ := h2
          exact Or.inl (fun hiff => hnk ((hiff k).mp hk))
      · exact Or.inl (fun hiff => h1 (length_eq_of_keyset_iff hnl hnf hiff))
    · intro hc
      rw [heq] at hc
      exact absurd hc (by simp)

/-- Witness for C2: pre-populated two-summer seed dict; the error case is
exercised with a short local dict, the success case with a full one. -/
theorem add_local_seed_dict_correct_witness :
    ((add_local_seed_dict [(1, 10), (2, 20)] [(1, []), (2, [])] 8
        [(1, 3)]).1 = some StateMachineError.invalidLocalSeedDict)
    ∧ mlookup (add_local_seed_dict [(1, 10), (2, 20)] [(1, []), (2, [])] 8
        [(1, 3), (2, 4)]).2 1 = some [(8, 3)] := by
  constructor
  · exact (add_local_seed_dict_correct [(1, 10), (2, 20)] [(1, []), (2, [])]
      8 [(1, 3)] (by decide) (by decide) (by decide) (by decide)).2.1.mpr
      (Or.inl (by
        intro hiff
        exact absurd ((hiff 2).mpr (by decide)) (by decide)))
  · have h := (add_local_seed_dict_correct [(1, 10), (2, 20)]
      [(1, []), (2, [])] 8 [(1, 3), (2, 4)] (by decide) (by decide)
      (by decide) (by decide)).2.2 (by decide) 1 3 (by decide)
    rw [h]
    decide

/-- C3: seed-dict invariant preservation — starting from an Update state
whose seed dict has exactly one (empty) inner map per key of the frozen
sum dict, after any sequence of handled update requests every top-level
key of the seed dict is a key of the frozen sum dict, every inner map has
the identical key-set (namely the accepted updater pks, each exactly
once), and the size of every inner map equals the number of accepted
updaters. -/
theorem seed_dict_invariant_preserved (frozen : SumDict) (sd0 : SeedDict)
    (magg sagg : Aggregation) (reqs : List UpdateRequest)
    (hnf : (mkeys frozen).Nodup)
    (hkeys : ∀ k, k ∈ mkeys sd0 ↔ k ∈ mkeys frozen)
    (hnd0 : (mkeys sd0).Nodup)
    (hempty : ∀ d ∈ mvalues sd0, d = ([] : UpdateSeedDict))
    (hreq : ∀ r ∈ reqs, (mkeys r.local_seed_dict).Nodup) :
    (∀ k ∈ mkeys (runUpdates (UpdateState.mk frozen sd0 magg sagg)
        reqs).seed_dict, k ∈ mkeys frozen)
    ∧ (∀ d ∈ mvalues (runUpdates (UpdateState.mk frozen sd0 magg sagg)
          reqs).seed_dict,
        mkeys d = acceptedPks (UpdateState.mk frozen sd0 magg sagg) reqs
        ∧ (mkeys d).Nodup
        ∧ d.length
            = (acceptedPks (UpdateState.mk frozen sd0 magg sagg)
                reqs).length)
    ∧ (∀ d1 ∈ mvalues (runUpdates (UpdateState.mk frozen sd0 magg sagg)
          reqs).seed_dict,
        ∀ d2 ∈ mvalues (runUpdates (UpdateState.mk frozen sd0 magg sagg)
          reqs).seed_dict, mkeys d1 = mkeys d2) := by
  have h := runUpdates_inv frozen reqs sd0 magg sagg [] hnf hkeys hnd0
    (fun d hd => by rw [hempty d hd]; exact ⟨rfl, List.nodup_nil⟩) hreq
  obtain ⟨hk, hnd, hin⟩ := h
  refine ⟨fun k hmem => (hk k).mp hmem, ?_, ?_⟩
  · intro d hd
    obtain ⟨h1, h2⟩ := hin d hd
    rw [List.nil_append] at h1
    refine ⟨h1, h2, ?_⟩
    have : (mkeys d).length = d.length := by simp [mkeys]
    rw [← this, h1]
  · intro d1 hd1 d2 hd2
    obtain ⟨h1, _⟩ := hin d1 hd1
    obtain ⟨h2, _⟩ := hin d2 hd2
    rw [h1, h2]

/-- Witness for C3: one summer, two copies of the same update request —
the first is accepted, the second rejected as a repetition; the final
inner map holds exactly the accepted pk. -/
theorem seed_dict_invariant_preserved_witness :
    (∀ k ∈ mkeys (runUpdates
        (UpdateState.mk [(1, 10)] [(1, [])]
          (Aggregation.new (MaskConfig.mk 5) 1)
          (Aggregation.new (MaskConfig.mk 5) 1))
        [UpdateRequest.mk 8 [(1, 3)]
            (MaskObject.new (MaskMany.new (MaskConfig.mk 5) [0])
              (MaskOne.new (MaskConfig.mk 5) 1))
            (MaskObject.new (MaskMany.new (MaskConfig.mk 5) [0])
              (MaskOne.new (MaskConfig.mk 5) 1)),
         UpdateRequest.mk 8 [(1, 3)]
            (MaskObject.new (MaskMany.new (MaskConfig.mk 5) [0])
              (MaskOne.new (MaskConfig.mk 5) 1))
            (MaskObject.new (MaskMany.new (MaskConfig.mk 5) [0])
              (MaskOne.new (MaskConfig.mk 5) 1))]).seed_dict,
      k ∈ mkeys [(1, 10)])
    ∧ (∀ d ∈ mvalues (runUpdates
        (UpdateState.mk [(1, 10)] [(1, [])]
          (Aggregation.new (MaskConfig.mk 5) 1)
          (Aggregation.new (MaskConfig.mk 5) 1))
        [UpdateRequest.mk 8 [(1, 3)]
            (MaskObject.new (MaskMany.new (MaskConfig.mk 5) [0])
              (MaskOne.new (MaskConfig.mk 5) 1))
            (MaskObject.new (MaskMany.new (MaskConfig.mk 5) [0])
              (MaskOne.new (MaskConfig.mk 5) 1)),
         UpdateRequest.mk 8 [(1, 3)]
            (MaskObject.new (MaskMany.new (MaskConfig.mk 5) [0])
              (MaskOne.new (MaskConfig.mk 5) 1))
            (MaskObject.new (MaskMany.new (MaskConfig.mk 5) [0])
              (MaskOne.new (MaskConfig.mk 5) 1))]).seed_dict,
        mkeys d = acceptedPks
          (UpdateState.mk [(1, 10)] [(1, [])]
            (Aggregation.new (MaskConfig.mk 5) 1)
            (Aggregation.new (MaskConfig.mk 5) 1))
          [UpdateRequest.mk 8 [(1, 3)]
              (MaskObject.new (MaskMany.new (MaskConfig.mk 5) [0])
                (MaskOne.new (MaskConfig.mk 5) 1))
              (MaskObject.new (MaskMany.new (MaskConfig.mk 5) [0])
                (MaskOne.new (MaskConfig.mk 5) 1)),
           UpdateRequest.mk 8 [(1, 3)]
              (MaskObject.new (MaskMany.new (MaskConfig.mk 5) [0])
                (MaskOne.new (MaskConfig.mk 5) 1))
              (MaskObject.new (MaskMany.new (MaskConfig.mk 5) [0])
                (MaskOne.new (MaskConfig.mk 5) 1))]
        ∧ (mkeys d).Nodup
        ∧ d.length = (acceptedPks
            (UpdateState.mk [(1, 10)] [(1, [])]
              (Aggregation.new (MaskConfig.mk 5) 1)
              (Aggregation.new (MaskConfig.mk 5) 1))
            [UpdateRequest.mk 8 [(1, 3)]
                (MaskObject.new (MaskMany.new (MaskConfig.mk 5) [0])
                  (MaskOne.new (MaskConfig.mk 5) 1))
                (MaskObject.new (MaskMany.new (MaskConfig.mk 5) [0])
                  (MaskOne.new (MaskConfig.mk 5) 1)),
             UpdateRequest.mk 8 [(1, 3)]
                (MaskObject.new (MaskMany.new (MaskConfig.mk 5) [0])
                  (MaskOne.new (MaskConfig.mk 5) 1))
                (MaskObject.new (MaskMany.new (MaskConfig.mk 5) [0])
                  (MaskOne.new (MaskConfig.mk 5) 1))]).length) :=
  ⟨(seed_dict_invariant_preserved [(1, 10)] [(1, [])]
      (Aggregation.new (MaskConfig.mk 5) 1) (Aggregation.new (MaskConfig.mk 5) 1)
      _ (by decide) (fun k => by simp) (by decide) (by decide) (by decide)).1,
   fun d hd => (seed_dict_invariant_preserved [(1, 10)] [(1, [])]
      (Aggregation.new (MaskConfig.mk 5) 1) (Aggregation.new (MaskConfig.mk 5) 1)
      _ (by decide) (fun k => by simp) (by decide) (by decide) (by decide)).2.1 d hd⟩

/-- C7: Sum2 buffer under-length rejection: for every buffer shorter
than the 64-byte signature field, `Sum2Buffer::new` (and hence
`Sum2::from_bytes`) returns a buffer-too-short `DecodeError`; for buffers
of at least 64 bytes it fails with the `DecodeError` of whichever mask
field cannot be fully read. -/
theorem sum2_buffer_under_length (buf : List ℕ) :
    (buf.length < sumSignatureLength
      → Sum2Buffer.new buf = Except.error DecodeError.bufferTooShort
        ∧ Sum2.from_bytes buf = Except.error DecodeError.bufferTooShort)
    ∧ (sumSignatureLength ≤ buf.length
      → (∀ e, maskObjectBufferNew (buf.drop sumSignatureLength)
            = Except.error e
          → Sum2Buffer.new buf = Except.error e)
        ∧ (∀ mlen e,
            maskObjectBufferNew (buf.drop sumSignatureLength) = Except.ok mlen
          → maskObjectBufferNew (buf.drop (sumSignatureLength + mlen))
              = Except.error e
          → Sum2Buffer.new buf = Except.error e)) := by
  constructor
  · intro h
    have hc : Sum2Buffer.check_buffer_length buf
        = Except.error DecodeError.bufferTooShort := by
      rw [Sum2Buffer.check_buffer_length, if_pos h]
    constructor
    · rw [Sum2Buffer.new, hc]
    · rw [Sum2.from_bytes, Sum2Buffer.new, hc]
  · intro h
    have hnot : ¬ buf.length < sumSignatureLength := by omega
    constructor
    · intro e he
      have hc : Sum2Buffer.check_buffer_length buf = Except.error e := by
        rw [Sum2Buffer.check_buffer_length, if_neg hnot, he]
      rw [Sum2Buffer.new, hc]
    · intro mlen e h1 h2
      have hc : Sum2Buffer.check_buffer_length buf = Except.error e := by
        rw [Sum2Buffer.check_buffer_length, if_neg hnot, h1]
        dsimp only
        rw [h2]
      rw [Sum2Buffer.new, hc]

/-- Witness for C7: a 63-byte buffer is rejected buffer-too-short, and a
64-byte buffer whose mask field is empty is rejected as well. -/
theorem sum2_buffer_under_length_witness :
    Sum2Buffer.new (List.replicate 63 0)
        = Except.error DecodeError.bufferTooShort
    ∧ Sum2.from_bytes (List.replicate 63 0)
        = Except.error DecodeError.bufferTooShort
    ∧ Sum2Buffer.new (List.replicate 64 0)
        = Except.error DecodeError.bufferTooShort :=
  ⟨((sum2_buffer_under_length (List.replicate 63 0)).1 (by decide)).1,
   ((sum2_buffer_under_length (List.replicate 63 0)).1 (by decide)).2,
   ((sum2_buffer_under_length (List.replicate 64 0)).2 (by decide)).1
     DecodeError.bufferTooShort rfl⟩

/-- C5: Sum2 codec round-trip: for every validly constructed `Sum2`
message (64-byte signature, valid model-mask vector and scalar, orders
and count encodable in their header fields), encoding with `to_bytes`
yields `buffer_length` bytes and decoding them with `from_bytes` returns
the original message. -/
theorem sum2_codec_roundtrip (m : Sum2)
    (hsig : m.sum_signature.length = sumSignatureLength)
    (hv : MaskMany.is_valid m.model_mask.vector = true)
    (hs : MaskOne.is_valid m.model_mask.scalar = true)
    (hov : m.model_mask.vector.config.order < 256 ^ 8)
    (hos : m.model_mask.scalar.config.order < 256 ^ 8)
    (hcnt : m.model_mask.vector.data.length < 256 ^ 4) :
    (Sum2.to_bytes m).length = Sum2.buffer_length m
    ∧ Sum2.from_bytes (Sum2.to_bytes m) = Except.ok m := by
  have hlen : (Sum2.to_bytes m).length = Sum2.buffer_length m := by
    rw [Sum2.to_bytes, Sum2.buffer_length]
    simp only [List.length_append, hsig, maskMany_to_bytes_length,
      maskOne_to_bytes_length]
  refine ⟨hlen, ?_⟩
  have hd64 := sum2_drop64 m hsig
  have hvec : MaskMany.from_bytes ((Sum2.to_bytes m).drop sumSignatureLength)
      = Except.ok m.model_mask.vector := by
    rw [hd64]
    exact maskMany_roundtrip _ _ hv hov hcnt
  have hmlen : maskObjectLen ((Sum2.to_bytes m).drop sumSignatureLength)
      = MaskMany.buffer_length m.model_mask.vector := by
    rw [hd64]
    exact maskObjectLen_to_bytes _ _ hov hcnt
  have hmbn : maskObjectBufferNew ((Sum2.to_bytes m).drop sumSignatureLength)
      = Except.ok (MaskMany.buffer_length m.model_mask.vector) := by
    rw [hd64]
    exact maskObjectBufferNew_to_bytes _ _ hov hcnt
  have hdsc := sum2_drop_scalar m hsig
  have hscal : MaskOne.from_bytes ((Sum2.to_bytes m).drop
      (sumSignatureLength + MaskMany.buffer_length m.model_mask.vector))
      = Except.ok m.model_mask.scalar := by
    rw [hdsc]
    have h := maskOne_roundtrip m.model_mask.scalar [] hs hos
    rwa [List.append_nil] at h
  have hmbn2 : ∃ L, maskObjectBufferNew ((Sum2.to_bytes m).drop
      (sumSignatureLength + MaskMany.buffer_length m.model_mask.vector))
      = Except.ok L := by
    rw [hdsc, MaskOne.to_bytes]
    have h := maskObjectBufferNew_to_bytes
      (MaskMany.new m.model_mask.scalar.config [m.model_mask.scalar.data])
      [] hos (by simp [MaskMany.new])
    rw [List.append_nil] at h
    exact ⟨_, h⟩
  obtain ⟨L, hmbn2⟩ := hmbn2
  have hge64 : ¬ (Sum2.to_bytes m).length < sumSignatureLength := by
    rw [hlen, Sum2.buffer_length]
    omega
  have hcheck : Sum2Buffer.check_buffer_length (Sum2.to_bytes m)
      = Except.ok () := by
    rw [Sum2Buffer.check_buffer_length, if_neg hge64, hmbn]
    dsimp only
    rw [hmbn2]
  have hnew : Sum2Buffer.new (Sum2.to_bytes m) = Except.ok (Sum2.to_bytes m) := by
    rw [Sum2Buffer.new, hcheck]
  rw [Sum2.from_bytes, hnew]
  dsimp only
  rw [hvec]
  dsimp only
  rw [hmlen, hscal]
  dsimp only
  rw [sum2_take64 m hsig]
  cases m with
  | mk sig mask =>
    cases mask with
    | mk vec scal => rfl

/-- Witness for C5: a concrete Sum2 message with a 64-byte signature, a
two-element vector and a scalar under order 5 round-trips. -/
theorem sum2_codec_roundtrip_witness :
    (Sum2.to_bytes
        (Sum2.mk (List.replicate 64 9)
          (MaskObject.new (MaskMany.new (MaskConfig.mk 5) [1, 2])
            (MaskOne.new (MaskConfig.mk 5) 3)))).length
      = Sum2.buffer_length
          (Sum2.mk (List.replicate 64 9)
            (MaskObject.new (MaskMany.new (MaskConfig.mk 5) [1, 2])
              (MaskOne.new (MaskConfig.mk 5) 3)))
    ∧ Sum2.from_bytes
        (Sum2.to_bytes
          (Sum2.mk (List.replicate 64 9)
            (MaskObject.new (MaskMany.new (MaskConfig.mk 5) [1, 2])
              (MaskOne.new (MaskConfig.mk 5) 3))))
      = Except.ok
          (Sum2.mk (List.replicate 64 9)
            (MaskObject.new (MaskMany.new (MaskConfig.mk 5) [1, 2])
              (MaskOne.new (MaskConfig.mk 5) 3))) :=
  sum2_codec_roundtrip
    (Sum2.mk (List.replicate 64 9)
      (MaskObject.new (MaskMany.new (MaskConfig.mk 5) [1, 2])
        (MaskOne.new (MaskConfig.mk 5) 3)))
    (by decide) (by decide) (by decide) (by decide) (by decide) (by decide)

end Xaynet
